import Mathlib

/-!
Verification of the cluster-map viewer (`main.py`) against its
natural-language specification.  Cluster indices are modelled as `Int`
(Python integers are unbounded and intermediate values such as
`min(loaded) - visible_range` may be negative); the mutable set
`self.loaded_clusters` is modelled as a `Finset Int`.  Each Lean
definition embeds the Python function of the same name.
-/

namespace ClustersMap

/-- Embeds `Window.load_additional_clusters(above)`.  The Python method reads
`min(self.loaded_clusters) if self.loaded_clusters else 0` (resp. `max`),
computes `start`/`end` depending on the direction, and then, for every
`cluster_index in range(start + 1, end + 1)` not already loaded, materializes
a button and adds the index to `loaded_clusters`.  The result pair is
(set of indices materialized by the call, the updated loaded set). -/
def load_additional_clusters (above : Bool) (loaded : Finset Int)
    (visible_range disk_clusters : Int) : Finset Int × Finset Int :=
  let min_loaded : Int := loaded.min.untop' 0
  let max_loaded : Int := loaded.max.unbot' 0
  let se : Int × Int :=
    if above then (max (min_loaded - visible_range) 0, min_loaded)
    else (max_loaded + 1, min (max_loaded + visible_range) disk_clusters)
  let mat := (Finset.Ico (se.1 + 1) (se.2 + 1)).filter (fun c => c ∉ loaded)
  (mat, loaded ∪ mat)

/-- Embeds one iteration of the outer `for start, end in self.cluster_group`
loop of `Window.display_clusters_near_highlighted`: the state is
(current loaded set, indices materialized so far by this call); the body adds
every `cluster_index in range(start - visible_range, end + visible_range + 1)`
with `0 <= cluster_index < disk_clusters` that is not yet loaded. -/
def display_step (visible_range disk_clusters : Int)
    (st : Finset Int × Finset Int) (r : Int × Int) : Finset Int × Finset Int :=
  let new := (Finset.Ico (r.1 - visible_range) (r.2 + visible_range + 1)).filter
      (fun c => 0 ≤ c ∧ c < disk_clusters ∧ c ∉ st.1)
  (st.1 ∪ new, st.2 ∪ new)

/-- Embeds `Window.display_clusters_near_highlighted` (the "initial load"):
it folds `display_step` over the highlighted file's extents
`self.cluster_group`, starting from the current loaded set and an empty
materialized set.  Returns (final loaded set, set materialized by the call). -/
def display_clusters_near_highlighted (cluster_group : List (Int × Int))
    (loaded : Finset Int) (visible_range disk_clusters : Int) :
    Finset Int × Finset Int :=
  cluster_group.foldl (display_step visible_range disk_clusters) (loaded, ∅)

/-- Modelled from the spec's words (for comparison with the code): the union,
over all extents `(s, e)`, of `[s - visible_range, e + visible_range]`
clamped to `[0, total_clusters)`. -/
def spec_initial_region (visible_range disk_clusters : Int) :
    List (Int × Int) → Finset Int
  | [] => ∅
  | r :: rest =>
      (Finset.Ico (r.1 - visible_range) (r.2 + visible_range + 1)).filter
        (fun c => 0 ≤ c ∧ c < disk_clusters) ∪
      spec_initial_region visible_range disk_clusters rest

theorem display_step_new (vr dc : Int) (L : Finset Int) (r : Int × Int) :
    (Finset.Ico (r.1 - vr) (r.2 + vr + 1)).filter
        (fun c => 0 ≤ c ∧ c < dc ∧ c ∉ L) =
      ((Finset.Ico (r.1 - vr) (r.2 + vr + 1)).filter
        (fun c => 0 ≤ c ∧ c < dc)) \ L := by
  ext x
  simp only [Finset.mem_filter, Finset.mem_sdiff, Finset.mem_Ico]
  tauto

theorem display_fold_fst (vr dc : Int) (group : List (Int × Int)) :
    ∀ L M : Finset Int,
      (group.foldl (display_step vr dc) (L, M)).1 =
        L ∪ spec_initial_region vr dc group := by
  induction group with
  | nil => intro L M; simp [spec_initial_region]
  | cons r rest ih =>
      intro L M
      simp only [List.foldl_cons, display_step, spec_initial_region]
      rw [ih, display_step_new]
      ext x
      simp only [Finset.mem_union, Finset.mem_sdiff]
      tauto

theorem display_fold_snd (vr dc : Int) (group : List (Int × Int)) :
    ∀ L M : Finset Int,
      (group.foldl (display_step vr dc) (L, M)).2 =
        M ∪ (spec_initial_region vr dc group \ L) := by
  induction group with
  | nil => intro L M; simp [spec_initial_region]
  | cons r rest ih =>
      intro L M
      simp only [List.foldl_cons, display_step, spec_initial_region]
      rw [ih, display_step_new]
      ext x
      simp only [Finset.mem_union, Finset.mem_sdiff]
      tauto

/-- Claim C3 (confirmed): `initial_load` materializes, for each extent
`(s, e)`, every index in `[s - visible_range, e + visible_range]` clamped to
`[0, total_clusters)`, unioned over all extents, minus the already-loaded
set; and for extents `[(100, 104)]`, `total_clusters = 1000`,
`visible_range = 5` it materializes exactly the fifteen clusters
`{95, ..., 109}`. -/
theorem c3_initial_load_region :
    (∀ (group : List (Int × Int)) (loaded : Finset Int) (vr dc : Int),
      (display_clusters_near_highlighted group loaded vr dc).2 =
        spec_initial_region vr dc group \ loaded) ∧
    (display_clusters_near_highlighted [((100 : Int), (104 : Int))] ∅ 5 1000).2 =
      Finset.Ico 95 110 := by
  constructor
  · intro group loaded vr dc
    simp [display_clusters_near_highlighted, display_fold_snd]
  · decide

/-- Claim C4 (confirmed): running `initial_load` twice with identical
arguments, without clearing the loaded set in between, materializes the empty
set on the second call. -/
theorem c4_initial_load_idempotent (group : List (Int × Int))
    (loaded : Finset Int) (vr dc : Int) :
    (display_clusters_near_highlighted group
        ((display_clusters_near_highlighted group loaded vr dc).1) vr dc).2 = ∅ := by
  simp only [display_clusters_near_highlighted, display_fold_snd, display_fold_fst]
  ext x
  simp only [Finset.mem_union, Finset.mem_sdiff, Finset.not_mem_empty]
  tauto

theorem spec_initial_region_zero (vr : Int) (group : List (Int × Int)) :
    spec_initial_region vr 0 group = ∅ := by
  induction group with
  | nil => rfl
  | cons r rest ih =>
      simp only [spec_initial_region, ih, Finset.union_empty]
      ext x
      simp only [Finset.mem_filter, Finset.not_mem_empty, iff_false, not_and]
      intro _ h0 h1
      omega

/-- Claim C5 (confirmed): with `total_clusters = 0` (the sentinel for an
unknown volume size) `initial_load` materializes the empty set for every
extent list: the guard `0 <= cluster_index < disk_clusters` rejects every
index, so no negative or degenerate range of indices is ever produced. -/
theorem c5_initial_load_zero_total (group : List (Int × Int))
    (loaded : Finset Int) (vr : Int) :
    (display_clusters_near_highlighted group loaded vr 0).2 = ∅ := by
  simp [display_clusters_near_highlighted, display_fold_snd,
    spec_initial_region_zero]

theorem loaded_min_untop (loaded : Finset Int) (h : loaded.Nonempty) :
    loaded.min.untop' 0 = loaded.min' h := by
  rw [← Finset.coe_min' h, WithTop.untop'_coe]

theorem loaded_max_unbot (loaded : Finset Int) (h : loaded.Nonempty) :
    loaded.max.unbot' 0 = loaded.max' h := by
  rw [← Finset.coe_max' h, WithBot.unbot'_coe]

/-- Claim C1 (corrected): for a non-empty loaded set, `extend` with direction
Above materializes the indices of the OPEN-below interval
`(max(min(loaded) - visible_range, 0), min(loaded)]` not already loaded (so
the spec's left endpoint `min(loaded) - visible_range` is never
materialized), and with direction Below the interval
`(max(loaded) + 1, min(max(loaded) + visible_range, total_clusters)]` minus
loaded (so the spec's first index `max(loaded) + 1` is skipped and the upper
clamp is inclusive in `total_clusters`).  In the scenario
`loaded = {95..109}`, `total = 1000`, `visible_range = 5`, `extend(Below)`
materializes exactly `{111, ..., 114}` — not the spec's `{110..114}` — and
the loaded maximum does become 114. -/
theorem c1_extend_ranges (loaded : Finset Int) (h : loaded.Nonempty)
    (vr dc : Int) :
    ((load_additional_clusters true loaded vr dc).1 =
        (Finset.Ioc (max (loaded.min' h - vr) 0) (loaded.min' h)).filter
          (fun c => c ∉ loaded) ∧
      (load_additional_clusters false loaded vr dc).1 =
        (Finset.Ioc (loaded.max' h + 1) (min (loaded.max' h + vr) dc)).filter
          (fun c => c ∉ loaded)) ∧
    ((load_additional_clusters false (Finset.Ico (95 : Int) 110) 5 1000).1 =
        Finset.Ico 111 115 ∧
      (load_additional_clusters false (Finset.Ico (95 : Int) 110) 5 1000).2.max =
        ((114 : Int) : WithBot Int)) := by
  refine ⟨⟨?_, ?_⟩, by decide, by decide⟩
  · rw [← loaded_min_untop loaded h]
    simp only [load_additional_clusters, Bool.false_eq_true, if_true, if_false]
    ext x
    simp only [Finset.mem_filter, Finset.mem_Ico, Finset.mem_Ioc,
      Int.add_one_le_iff, Int.lt_add_one_iff]
  · rw [← loaded_max_unbot loaded h]
    simp only [load_additional_clusters, Bool.false_eq_true, if_true, if_false]
    ext x
    simp only [Finset.mem_filter, Finset.mem_Ico, Finset.mem_Ioc,
      Int.add_one_le_iff, Int.lt_add_one_iff]

theorem c1_extend_ranges_witness :
    (Finset.Ico (95 : Int) 110).Nonempty ∧
    (load_additional_clusters false (Finset.Ico (95 : Int) 110) 5 1000).1 =
      Finset.Ico 111 115 :=
  ⟨by decide, (c1_extend_ranges (Finset.Ico 95 110) (by decide) 5 1000).2.1⟩

theorem c1_counterexample :
    ¬ (load_additional_clusters false (Finset.Ico (95 : Int) 110) 5 1000).1 =
        Finset.Ico 110 115 := by
  decide

/-- Claim C2 (corrected): `extend(Above)` indeed never materializes an index
below 0 (every materialized index is at least 1), but `extend(Below)` only
guarantees materialized indices `<= total_clusters`: the clamp
`min(max(loaded) + visible_range, disk_clusters)` is inclusive, so the index
equal to `total_clusters` can be materialized (see the counterexample). -/
theorem c2_extend_bounds (loaded : Finset Int) (vr dc : Int) (c : Int) :
    (c ∈ (load_additional_clusters true loaded vr dc).1 → 0 ≤ c) ∧
    (c ∈ (load_additional_clusters false loaded vr dc).1 → c ≤ dc) := by
  constructor
  · intro hc
    simp only [load_additional_clusters, Bool.false_eq_true, if_true, if_false,
      Finset.mem_filter, Finset.mem_Ico] at hc
    have h2 := le_max_right (loaded.min.untop' 0 - vr) (0 : Int)
    omega
  · intro hc
    simp only [load_additional_clusters, Bool.false_eq_true, if_true, if_false,
      Finset.mem_filter, Finset.mem_Ico] at hc
    have h2 := min_le_right (loaded.max.unbot' 0 + vr) dc
    omega

theorem c2_extend_bounds_witness :
    (4 : Int) ∈ (load_additional_clusters true ({5} : Finset Int) 2 10).1 ∧
    (0 : Int) ≤ 4 ∧
    (11 : Int) ∈ (load_additional_clusters false ({5} : Finset Int) 7 11).1 ∧
    (11 : Int) ≤ 11 :=
  ⟨by decide, (c2_extend_bounds {5} 2 10 4).1 (by decide), by decide,
    (c2_extend_bounds {5} 7 11 11).2 (by decide)⟩

theorem c2_counterexample :
    ¬ (∀ c ∈ (load_additional_clusters false ({0} : Finset Int) 500 2).1,
        c < 2) := by
  decide

/-- Value of one hexadecimal digit, as accepted by Python `int(s, 16)`. -/
def hexDigitVal (c : Char) : Option Nat :=
  if '0' ≤ c ∧ c ≤ '9' then some (c.toNat - '0'.toNat)
  else if 'a' ≤ c ∧ c ≤ 'f' then some (c.toNat - 'a'.toNat + 10)
  else if 'A' ≤ c ∧ c ≤ 'F' then some (c.toNat - 'A'.toNat + 10)
  else none

def hexNatAux : List Char → Nat → Option Nat
  | [], acc => some acc
  | c :: cs, acc =>
      match hexDigitVal c with
      | some d => hexNatAux cs (acc * 16 + d)
      | none => none

def hexNat : List Char → Option Nat
  | [] => none
  | l => hexNatAux l 0

/-- Strips the optional `0x`/`0X` mark accepted by Python `int(s, 16)`. -/
def stripHexMark : List Char → List Char
  | '0' :: 'x' :: rest => rest
  | '0' :: 'X' :: rest => rest
  | l => l

/-- Models Python `int(s, 16)` on plain arguments: an optional sign, an
optional `0x` mark, then hexadecimal digits (`_` separators and surrounding
whitespace are not modelled).  `none` models a raised `ValueError`. -/
def int16 (s : String) : Option Int :=
  match s.toList with
  | '-' :: rest => (hexNat (stripHexMark rest)).map (fun n => -(n : Int))
  | '+' :: rest => (hexNat (stripHexMark rest)).map (fun n => (n : Int))
  | l => (hexNat (stripHexMark l)).map (fun n => (n : Int))

/-- Models the Python chunking
`[output[i:i + 6] for i in range(0, len(output), 6)]` (a trailing chunk may
be shorter than 6). -/
def chunk6 : List String → List (List String)
  | [] => []
  | [a] => [[a]]
  | [a, b] => [[a, b]]
  | [a, b, c] => [[a, b, c]]
  | [a, b, c, d] => [[a, b, c, d]]
  | [a, b, c, d, e] => [[a, b, c, d, e]]
  | a :: b :: c :: d :: e :: f :: rest => [a, b, c, d, e, f] :: chunk6 rest

/-- Models the body of the parsing loop of `get_file_clusters`:
`start_cluster = int(cluster_data[-1], 16)`,
`cluster_count = int(cluster_data[3], 16)`, and the appended pair is
`(start_cluster, start_cluster + cluster_count - 1)`.  `none` models an
`IndexError` (chunk shorter than 4) or `ValueError` raised by this chunk. -/
def parse_cluster_data (cluster_data : List String) : Option (Int × Int) :=
  cluster_data.getLast?.bind fun startTok =>
    (cluster_data.get? 3).bind fun countTok =>
      (int16 startTok).bind fun start_cluster =>
        (int16 countTok).map fun cluster_count =>
          (start_cluster, start_cluster + cluster_count - 1)

/-- Models the `result` accumulation loop of `get_file_clusters`: one raised
exception (a `none` chunk) makes the whole loop raise, discarding the
partial result. -/
def parse_chunks : List (List String) → Option (List (Int × Int))
  | [] => some []
  | c :: rest =>
      match parse_cluster_data c, parse_chunks rest with
      | some p, some ps => some (p :: ps)
      | _, _ => none

/-- Character-list version of Python's substring test `needle in hay`. -/
def startsWithSeq : List Char → List Char → Bool
  | [], _ => true
  | _ :: _, [] => false
  | a :: as, b :: bs => a = b && startsWithSeq as bs

def containsSeq (needle : List Char) : List Char → Bool
  | [] => startsWithSeq needle []
  | b :: rest => startsWithSeq needle (b :: rest) || containsSeq needle rest

/-- The marker word checked by `get_file_clusters`
(`'отсутствуют' in ''.join(output)`). -/
def absent_marker : List Char := "отсутствуют".toList

/-- Embeds `get_file_clusters`, with the blocking `fsutil file queryextents`
call abstracted to its exit code and the whitespace-split token list of its
decoded stdout (the `.strip().replace('/r/n', '/n').split()` of the source
only affects whitespace, which token-list inputs already factor out).  Every
failure mode (nonzero exit, empty output, the "no extents" marker, a parse
exception) yields `[]`. -/
def get_file_clusters (returncode : Int) (output : List String) :
    List (Int × Int) :=
  if returncode ≠ 0 then []
  else if output.isEmpty || containsSeq absent_marker (String.join output).toList
    then []
  else
    match parse_chunks (chunk6 output) with
    | some result => result
    | none => []

theorem parse_chunks_le (l : List (List String)) :
    ∀ res, parse_chunks l = some res →
      (∀ c ∈ l, 1 ≤ (((c.get? 3).bind int16).getD 1)) →
      ∀ p ∈ res, p.1 ≤ p.2 := by
  induction l with
  | nil =>
      intro res hres _
      simp only [parse_chunks, Option.some.injEq] at hres
      subst hres; simp
  | cons c rest ih =>
      intro res hres hcnt
      simp only [parse_chunks] at hres
      cases hpc : parse_cluster_data c with
      | none => rw [hpc] at hres; simp at hres
      | some p0 =>
        cases hpr : parse_chunks rest with
        | none => rw [hpc, hpr] at hres; simp at hres
        | some ps =>
          rw [hpc, hpr] at hres
          simp only [Option.some.injEq] at hres
          subst hres
          intro p hp
          rcases List.mem_cons.mp hp with hp0 | hps
          · subst hp0
            simp only [parse_cluster_data, Option.bind_eq_some,
              Option.map_eq_some'] at hpc
            rcases hpc with ⟨st, hst, ct, hct, s, hs, n, hn, hpair⟩
            have h1 := hcnt c (List.mem_cons_self c rest)
            rw [hct] at h1
            simp only [Option.some_bind, hn, Option.getD_some] at h1
            rw [← hpair]
            simp only
            omega
          · exact ih ps hpr (fun c2 hc2 => hcnt c2 (List.mem_cons_of_mem c hc2))
              p hps

/-- Claim C6 (corrected): a range returned by the extent probe is
`(start, start + count - 1)` for the parsed `LCN`/`Clusters` fields, so
`s ≤ e` holds whenever every parsed cluster-count field is at least 1; a
zero count produces an inverted range, and nothing in the probe enforces
disjointness of the returned ranges (see the counterexample), so neither
property holds for every output the underlying query can produce. -/
theorem c6_probe_ranges (returncode : Int) (output : List String)
    (hcount : ∀ c ∈ chunk6 output, 1 ≤ (((c.get? 3).bind int16).getD 1)) :
    ∀ p ∈ get_file_clusters returncode output, p.1 ≤ p.2 := by
  intro p hp
  simp only [get_file_clusters] at hp
  by_cases h1 : returncode ≠ 0
  · rw [if_pos h1] at hp; simp at hp
  · rw [if_neg h1] at hp
    by_cases h2 : (output.isEmpty ||
        containsSeq absent_marker (String.join output).toList) = true
    · rw [if_pos h2] at hp; simp at hp
    · rw [if_neg h2] at hp
      cases hm : parse_chunks (chunk6 output) with
      | none => rw [hm] at hp; simp at hp
      | some res =>
          rw [hm] at hp
          exact parse_chunks_le (chunk6 output) res hm hcount p hp

theorem c6_probe_ranges_witness :
    (∀ c ∈ chunk6 ["VCN:", "0x0", "Clusters:", "0x1", "LCN:", "0x5"],
        1 ≤ (((c.get? 3).bind int16).getD 1)) ∧
    ∀ p ∈ get_file_clusters 0 ["VCN:", "0x0", "Clusters:", "0x1", "LCN:", "0x5"],
      p.1 ≤ p.2 :=
  ⟨by decide,
    c6_probe_ranges 0 ["VCN:", "0x0", "Clusters:", "0x1", "LCN:", "0x5"]
      (by decide)⟩

theorem c6_counterexample :
    get_file_clusters 0
        ["VCN:", "0x0", "Clusters:", "0x0", "LCN:", "0x5",
         "VCN:", "0x0", "Clusters:", "0x2", "LCN:", "0x5",
         "VCN:", "0x2", "Clusters:", "0x1", "LCN:", "0x6"] =
      [(5, 4), (5, 6), (6, 6)] ∧
    ¬ ((5 : Int) ≤ 4) ∧
    ((5 : Int), (6 : Int)) ≠ ((6 : Int), (6 : Int)) ∧
    ((5 : Int) ≤ 6 ∧ (6 : Int) ≤ 6) ∧ ((6 : Int) ≤ 6 ∧ (6 : Int) ≤ 6) := by
  refine ⟨by decide, by decide, by decide, by decide, by decide⟩

/-- Value of one decimal digit, as accepted by Python `int(s)`. -/
def decDigitVal (c : Char) : Option Nat :=
  if '0' ≤ c ∧ c ≤ '9' then some (c.toNat - '0'.toNat) else none

def decNatAux : List Char → Nat → Option Nat
  | [], acc => some acc
  | c :: cs, acc =>
      match decDigitVal c with
      | some d => decNatAux cs (acc * 10 + d)
      | none => none

def decNat : List Char → Option Nat
  | [] => none
  | l => decNatAux l 0

/-- Models Python `int(s)` on plain arguments (optional sign, then decimal
digits), over the string's characters; `none` models `ValueError` — in
particular `int('')` raises. -/
def int10chars : List Char → Option Int
  | '-' :: rest => (decNat rest).map (fun n => -(n : Int))
  | '+' :: rest => (decNat rest).map (fun n => (n : Int))
  | l => (decNat l).map (fun n => (n : Int))

/-- The marker phrase searched for by `get_disk_clusters`. -/
def total_marker : List Char := "Всего кластеров".toList

/-- Models Python `line.split(':')` over the line's characters. -/
def splitOnColon : List Char → List (List Char)
  | [] => [[]]
  | c :: rest =>
      match splitOnColon rest with
      | [] => [[c]]
      | h :: t => if c = ':' then [] :: h :: t else (c :: h) :: t

/-- Models Python `str.split()` with no arguments (split on whitespace and
drop empty pieces), with `cur` the reversed token being accumulated. -/
def splitWsAux : List Char → List Char → List (List Char)
  | [], cur => if cur.isEmpty then [] else [cur.reverse]
  | c :: rest, cur =>
      if c.isWhitespace then
        if cur.isEmpty then splitWsAux rest []
        else cur.reverse :: splitWsAux rest []
      else splitWsAux rest (c :: cur)

def splitWs (l : List Char) : List (List Char) := splitWsAux l []

/-- Models the line loop of `get_disk_clusters`: for every line containing
`Всего кластеров`, take the text after the line's first `:`, split it on
whitespace, and append the groups up to the first one starting with `(` to
the accumulated numeral text (`total_clusters_parse`).  A matching line with
no `:` raises `IndexError` (`.error`).  Nonempty groups make the
`element[0]` subscript of the source safe, which `splitWs` guarantees. -/
def total_clusters_fold : List String → List Char → Except Unit (List Char)
  | [], acc => .ok acc
  | line :: rest, acc =>
      if containsSeq total_marker line.toList then
        match (splitOnColon line.toList).get? 1 with
        | none => .error ()
        | some field =>
            total_clusters_fold rest
              (acc ++ ((splitWs field).takeWhile (fun e =>
                match e with
                | '(' :: _ => false
                | _ => true)).flatten)
      else total_clusters_fold rest acc

/-- Embeds `get_disk_clusters`, with the `fsutil fsinfo ntfsinfo` call
abstracted to its exit code and the list of decoded stdout lines.  On
nonzero exit the function returns 0.  Otherwise it concatenates, over every
line containing `Всего кластеров`, the whitespace-separated groups after the
line's first `:` (stopping at the first group starting with `(`), and
applies `int`.  `Except.error` models an uncaught exception: `IndexError`
when a matching line has no `:`, or `ValueError` from `int` when the
collected text is not a decimal numeral (for example when no line matched,
`int('')`). -/
def get_disk_clusters (returncode : Int) (output : List String) :
    Except Unit Int :=
  if returncode ≠ 0 then .ok 0
  else
    match total_clusters_fold output [] with
    | .error e => .error e
    | .ok parsed =>
        match int10chars parsed with
        | some n => .ok n
        | none => .error ()

/-- Claim C8 (corrected): whenever the underlying `fsutil` query reports
failure (nonzero exit code), `get_disk_clusters` returns the integer 0
without raising, and on a well-formed success output it returns the parsed
total; but the operation does NOT return a definite result for every output
the query can produce: with exit code 0 and no parseable `Всего кластеров`
line (for example a non-Russian locale), `int('')` raises and the exception
crosses the core/collaborator boundary (see the counterexample). -/
theorem c8_disk_clusters :
    (∀ (returncode : Int) (output : List String), returncode ≠ 0 →
      get_disk_clusters returncode output = .ok 0) ∧
    get_disk_clusters 0 ["Всего кластеров : 1000"] = .ok 1000 := by
  constructor
  · intro returncode output h
    simp [get_disk_clusters, h]
  · rfl

theorem c8_disk_clusters_witness :
    (1 : Int) ≠ 0 ∧ get_disk_clusters 1 ["junk"] = .ok 0 :=
  ⟨by decide, c8_disk_clusters.1 1 ["junk"] (by decide)⟩

theorem c8_counterexample :
    get_disk_clusters 0 ["Total Clusters : 1000"] = .error () := by
  rfl

/-- Embeds `valid_directory`: a directory is scanned unless its name starts
with `$` or with `System Volume Information` (Python `str.startswith`,
modelled character by character). -/
def valid_directory (path : String) : Bool :=
  !(startsWithSeq ("$").toList path.toList ||
    startsWithSeq ("System Volume Information").toList path.toList)

/-- Model of a directory listing as seen by `os.scandir`, in iteration
order: `file` carries the path together with the result of
`get_file_clusters` for it (that probe never raises — `[]` covers empty
files, unsupported queries and failures); `dir` is a readable subdirectory
with its recursively listed contents; `unreadableDir` is a subdirectory for
which `os.scandir` raises (for example `PermissionError`).  `next` is the
rest of the same directory's listing. -/
inductive FsTree where
  | nil : FsTree
  | file (path : String) (clusters : List (Int × Int)) (next : FsTree) : FsTree
  | dir (name : String) (contents : FsTree) (next : FsTree) : FsTree
  | unreadableDir (name : String) (next : FsTree) : FsTree

/-- Embeds `scan_directory(root, file_clusters)` applied to a directory
listing: validly-named subdirectories are recursed into, files with a
nonempty cluster list are recorded (the shared dict is modelled as an
append-only association list), and reaching an unreadable subdirectory
raises — the source has no exception handler, so the error propagates
(`.error`). -/
def scan_entries : FsTree → List (String × List (Int × Int)) →
    Except Unit (List (String × List (Int × Int)))
  | .nil, acc => .ok acc
  | .file path clusters next, acc =>
      scan_entries next (if clusters.isEmpty then acc else acc ++ [(path, clusters)])
  | .dir name contents next, acc =>
      if valid_directory name then
        match scan_entries contents acc with
        | .error e => .error e
        | .ok acc2 => scan_entries next acc2
      else scan_entries next acc
  | .unreadableDir name next, acc =>
      if valid_directory name then .error () else scan_entries next acc

/-- Embeds the top-level loop of `get_files_with_clusters` over the entries
of the drive root: only validly-named directories are submitted to the
worker pool (top-level regular files are never probed); the futures are
modelled sequentially, and `future.result()` re-raises the first stored
exception, so one unreadable subdirectory aborts the whole call. -/
def scan_root : FsTree → List (String × List (Int × Int)) →
    Except Unit (List (String × List (Int × Int)))
  | .nil, acc => .ok acc
  | .file _ _ next, acc => scan_root next acc
  | .dir name contents next, acc =>
      if valid_directory name then
        match scan_entries contents acc with
        | .error e => .error e
        | .ok acc2 => scan_root next acc2
      else scan_root next acc
  | .unreadableDir name next, acc =>
      if valid_directory name then .error () else scan_root next acc

/-- Embeds `get_files_with_clusters` on the drive root's listing. -/
def get_files_with_clusters (root : FsTree) :
    Except Unit (List (String × List (Int × Int))) :=
  scan_root root []

/-- Every directory in the tree is readable (no `unreadableDir`). -/
def all_dirs_readable : FsTree → Bool
  | .nil => true
  | .file _ _ next => all_dirs_readable next
  | .dir _ contents next => all_dirs_readable contents && all_dirs_readable next
  | .unreadableDir _ _ => false

theorem scan_entries_ok (t : FsTree) :
    ∀ acc, all_dirs_readable t = true →
      ∃ m, scan_entries t acc = .ok m ∧ ∀ e ∈ m, e ∈ acc ∨ e.2 ≠ [] := by
  induction t with
  | nil =>
      intro acc _
      exact ⟨acc, rfl, fun e he => .inl he⟩
  | file path clusters next ih =>
      intro acc h
      rw [all_dirs_readable] at h
      rcases ih (if clusters.isEmpty then acc else acc ++ [(path, clusters)]) h
        with ⟨m, hm, hmem⟩
      refine ⟨m, hm, fun e he => ?_⟩
      rcases hmem e he with h1 | h1
      · by_cases hcl : clusters.isEmpty
        · rw [if_pos hcl] at h1
          exact .inl h1
        · rw [if_neg hcl] at h1
          rcases List.mem_append.mp h1 with h2 | h2
          · exact .inl h2
          · right
            simp only [List.mem_singleton] at h2
            subst h2
            simpa [List.isEmpty_iff] using hcl
      · exact .inr h1
  | dir name contents next ihc ihn =>
      intro acc h
      rw [all_dirs_readable, Bool.and_eq_true] at h
      rw [scan_entries]
      by_cases hv : valid_directory name = true
      · rw [if_pos hv]
        rcases ihc acc h.1 with ⟨m1, hm1, hmem1⟩
        rw [hm1]
        rcases ihn m1 h.2 with ⟨m, hm, hmem⟩
        refine ⟨m, hm, fun e he => ?_⟩
        rcases hmem e he with h1 | h1
        · exact hmem1 e h1
        · exact .inr h1
      · rw [if_neg hv]
        exact ihn acc h.2
  | unreadableDir name next _ =>
      intro acc h
      rw [all_dirs_readable] at h
      exact absurd h (by simp)

theorem scan_root_ok (t : FsTree) :
    ∀ acc, all_dirs_readable t = true →
      ∃ m, scan_root t acc = .ok m ∧ ∀ e ∈ m, e ∈ acc ∨ e.2 ≠ [] := by
  induction t with
  | nil =>
      intro acc _
      exact ⟨acc, rfl, fun e he => .inl he⟩
  | file path clusters next ih =>
      intro acc h
      rw [all_dirs_readable] at h
      exact ih acc h
  | dir name contents next _ ihn =>
      intro acc h
      rw [all_dirs_readable, Bool.and_eq_true] at h
      rw [scan_root]
      by_cases hv : valid_directory name = true
      · rw [if_pos hv]
        rcases scan_entries_ok contents acc h.1 with ⟨m1, hm1, hmem1⟩
        rw [hm1]
        rcases ihn m1 h.2 with ⟨m, hm, hmem⟩
        refine ⟨m, hm, fun e he => ?_⟩
        rcases hmem e he with h1 | h1
        · exact hmem1 e h1
        · exact .inr h1
      · rw [if_neg hv]
        exact ihn acc h.2
  | unreadableDir name next _ =>
      intro acc h
      rw [all_dirs_readable] at h
      exact absurd h (by simp)

/-- Claim C7 (corrected): files that cannot be read ARE skipped silently —
the probe returns `[]` on any failure and such files are simply omitted, so
when every directory in the tree is readable the scan completes and returns
a map whose every entry has nonempty extents, whatever the files' probe
results; but `scan_directory` has no handler around `os.scandir`, so a
single unreadable SUBDIRECTORY raises, `future.result()` re-raises, and the
whole scan aborts instead of skipping it (see the counterexample). -/
theorem c7_scan_error_policy (root : FsTree)
    (h : all_dirs_readable root = true) :
    ∃ m, get_files_with_clusters root = .ok m ∧ ∀ e ∈ m, e.2 ≠ [] := by
  rcases scan_root_ok root [] h with ⟨m, hm, hmem⟩
  refine ⟨m, hm, fun e he => ?_⟩
  rcases hmem e he with h1 | h1
  · exact absurd h1 (List.not_mem_nil e)
  · exact h1

theorem c7_scan_error_policy_witness :
    all_dirs_readable
        (FsTree.dir "docs"
          (FsTree.file "docs/bad" []
            (FsTree.file "docs/good" [(1, 2)] FsTree.nil)) FsTree.nil) = true ∧
    ∃ m, get_files_with_clusters
        (FsTree.dir "docs"
          (FsTree.file "docs/bad" []
            (FsTree.file "docs/good" [(1, 2)] FsTree.nil)) FsTree.nil) = .ok m ∧
      ∀ e ∈ m, e.2 ≠ [] :=
  ⟨by decide,
    c7_scan_error_policy
      (FsTree.dir "docs"
        (FsTree.file "docs/bad" []
          (FsTree.file "docs/good" [(1, 2)] FsTree.nil)) FsTree.nil)
      (by decide)⟩

theorem c7_counterexample :
    get_files_with_clusters
        (FsTree.dir "docs" (FsTree.unreadableDir "private" FsTree.nil)
          FsTree.nil) = .error () := by
  rfl

/-- Embeds the Python membership test
`any(start <= cluster_index <= end for start, end in clusters)`. -/
def ownsCluster (cluster_index : Int) (clusters : List (Int × Int)) : Bool :=
  clusters.any (fun r =>
    decide (r.1 ≤ cluster_index) && decide (cluster_index ≤ r.2))

/-- Embeds one iteration of the ownership-search loop of
`Window.handle_cluster_click`: a map entry owning the clicked cluster
overwrites `(clicked_file_path, clicked_cluster_group)`; the `break` leaves
only the inner per-extent loop, so iteration over later files continues. -/
def click_step (cluster_index : Int)
    (acc : Option String × List (Int × Int))
    (pc : String × List (Int × Int)) : Option String × List (Int × Int) :=
  if ownsCluster cluster_index pc.2 then (some pc.1, pc.2) else acc

/-- Embeds the whole ownership-search loop of `handle_cluster_click`
(starting from `clicked_file_path = None`, `clicked_cluster_group = []`). -/
def find_clicked (file_clusters_map : List (String × List (Int × Int)))
    (cluster_index : Int) : Option String × List (Int × Int) :=
  file_clusters_map.foldl (click_step cluster_index) (none, [])

/-- Interactive state touched by `handle_cluster_click`: the highlighted
path `self.file_path`, its extents `self.cluster_group`, the cluster map
(as an association list in dict iteration order) and the loaded set. -/
structure WindowState where
  file_path : Option String
  cluster_group : List (Int × Int)
  file_clusters_map : List (String × List (Int × Int))
  loaded_clusters : Finset Int

/-- Outcome of a click, as described by the spec's `ClickOutcome`. -/
inductive ClickOutcome where
  | SameFileDetail (cluster_number : Int) (cluster_group : List (Int × Int))
  | OtherFileSelected (path : String) (cluster_group : List (Int × Int))
  | Unowned

/-- Embeds `Window.handle_cluster_click`: resolves ownership of the clicked
cluster; inside the highlighted file it opens the detail dialog (state
unchanged); inside another mapped file it switches `file_path` and
`cluster_group` to that file (restyling is presentation); owned by no file,
nothing happens. -/
def handle_cluster_click (st : WindowState) (cluster_index : Int) :
    ClickOutcome × WindowState :=
  let clicked := find_clicked st.file_clusters_map cluster_index
  match clicked.1 with
  | none => (.Unowned, st)
  | some clicked_file_path =>
      if st.file_path = some clicked_file_path then
        (.SameFileDetail cluster_index clicked.2, st)
      else
        (.OtherFileSelected clicked_file_path clicked.2,
          { st with file_path := some clicked_file_path,
                    cluster_group := clicked.2 })

/-- Modelled from the claim's words, for comparison with the code: the LAST
entry of the map, in iteration order, whose extents contain the cluster. -/
def last_owner (m : List (String × List (Int × Int))) (cluster_index : Int) :
    Option (String × List (Int × Int)) :=
  match m with
  | [] => none
  | e :: rest =>
      match last_owner rest cluster_index with
      | some r => some r
      | none => if ownsCluster cluster_index e.2 then some e else none

theorem click_fold_acc (c : Int) (m : List (String × List (Int × Int))) :
    ∀ acc, m.foldl (click_step c) acc =
      match last_owner m c with
      | some e => (some e.1, e.2)
      | none => acc := by
  induction m with
  | nil => intro acc; rfl
  | cons e rest ih =>
      intro acc
      simp only [List.foldl_cons, last_owner]
      rw [ih]
      cases hlo : last_owner rest c with
      | some r => rfl
      | none =>
          simp only [click_step]
          by_cases ho : ownsCluster c e.2 = true
          · rw [if_pos ho, if_pos ho]
          · rw [if_neg ho, if_neg ho]

/-- Two extent lists own no cluster in common. -/
def extents_disjoint (a b : List (Int × Int)) : Prop :=
  ∀ x : Int, ¬ (ownsCluster x a = true ∧ ownsCluster x b = true)

theorem last_owner_none (c : Int) (m : List (String × List (Int × Int)))
    (h : ∀ e ∈ m, ownsCluster c e.2 = false) : last_owner m c = none := by
  induction m with
  | nil => rfl
  | cons e rest ih =>
      rw [last_owner, ih (fun x hx => h x (List.mem_cons_of_mem e hx)),
        h e (List.mem_cons_self e rest)]
      simp

theorem last_owner_unique (c : Int) (m : List (String × List (Int × Int))) :
    ∀ (p : String) (g : List (Int × Int)),
      m.Pairwise (fun a b => extents_disjoint a.2 b.2) →
      (p, g) ∈ m → ownsCluster c g = true →
      last_owner m c = some (p, g) := by
  induction m with
  | nil => intro p g _ hm _; simp at hm
  | cons e rest ih =>
      intro p g hdisj hm howns
      rcases List.pairwise_cons.mp hdisj with ⟨hhead, htail⟩
      rw [last_owner]
      rcases List.mem_cons.mp hm with he | hrest
      · subst he
        by_cases hr : (p, g) ∈ rest
        · rw [ih p g htail hr howns]
        · rw [last_owner_none c rest ?_, howns]
          · simp
          · intro x hx
            cases hb : ownsCluster c x.2 with
            | false => rfl
            | true => exact absurd ⟨howns, hb⟩ (hhead x hx c)
      · rw [ih p g htail hrest howns]

theorem find_clicked_unique (c : Int) (m : List (String × List (Int × Int)))
    (p : String) (g : List (Int × Int))
    (hdisj : m.Pairwise (fun a b => extents_disjoint a.2 b.2))
    (hm : (p, g) ∈ m) (howns : ownsCluster c g = true) :
    find_clicked m c = (some p, g) := by
  rw [find_clicked, click_fold_acc, last_owner_unique c m p g hdisj hm howns]

theorem find_clicked_none (c : Int) (m : List (String × List (Int × Int)))
    (h : ∀ e ∈ m, ownsCluster c e.2 = false) :
    find_clicked m c = (none, []) := by
  rw [find_clicked, click_fold_acc, last_owner_none c m h]

/-- Claim C9 (confirmed): when the mapped files' extents are pairwise
disjoint and the highlighted state is consistent with the map
(`file_path = some hp` with `(hp, cluster_group)` a map entry), a click on a
cluster owned by the highlighted file yields `SameFileDetail` with the state
unchanged; a click owned by a different mapped file yields
`OtherFileSelected` carrying exactly that file's stored extents and switches
the highlight to it; and a click owned by no mapped file yields `Unowned`
with the state — highlighted path, highlighted extents and loaded set —
unchanged. -/
theorem c9_click_resolution (st : WindowState) (hp : String)
    (cluster_index : Int)
    (hdisj : st.file_clusters_map.Pairwise (fun a b => extents_disjoint a.2 b.2))
    (hpath : st.file_path = some hp)
    (hmem : (hp, st.cluster_group) ∈ st.file_clusters_map) :
    (ownsCluster cluster_index st.cluster_group = true →
      handle_cluster_click st cluster_index =
        (.SameFileDetail cluster_index st.cluster_group, st)) ∧
    (∀ (q : String) (gq : List (Int × Int)),
      (q, gq) ∈ st.file_clusters_map → q ≠ hp →
      ownsCluster cluster_index gq = true →
      handle_cluster_click st cluster_index =
        (.OtherFileSelected q gq,
          { st with file_path := some q, cluster_group := gq })) ∧
    ((∀ e ∈ st.file_clusters_map, ownsCluster cluster_index e.2 = false) →
      handle_cluster_click st cluster_index = (.Unowned, st)) := by
  refine ⟨?_, ?_, ?_⟩
  · intro howns
    have hf := find_clicked_unique cluster_index st.file_clusters_map hp
      st.cluster_group hdisj hmem howns
    simp [handle_cluster_click, hf, hpath]
  · intro q gq hq hne howns
    have hf := find_clicked_unique cluster_index st.file_clusters_map q gq
      hdisj hq howns
    simp [handle_cluster_click, hf, hpath, hne]
    exact fun h => hne h.symm
  · intro hnone
    have hf := find_clicked_none cluster_index st.file_clusters_map hnone
    simp [handle_cluster_click, hf]

theorem c9_click_resolution_witness :
    handle_cluster_click
        ⟨some "A", [(10, 20)], [("A", [(10, 20)]), ("B", [(30, 40)])], ∅⟩ 15 =
      (.SameFileDetail 15 [(10, 20)],
        ⟨some "A", [(10, 20)], [("A", [(10, 20)]), ("B", [(30, 40)])], ∅⟩) ∧
    handle_cluster_click
        ⟨some "A", [(10, 20)], [("A", [(10, 20)]), ("B", [(30, 40)])], ∅⟩ 35 =
      (.OtherFileSelected "B" [(30, 40)],
        ⟨some "B", [(30, 40)], [("A", [(10, 20)]), ("B", [(30, 40)])], ∅⟩) ∧
    handle_cluster_click
        ⟨some "A", [(10, 20)], [("A", [(10, 20)]), ("B", [(30, 40)])], ∅⟩ 25 =
      (.Unowned,
        ⟨some "A", [(10, 20)], [("A", [(10, 20)]), ("B", [(30, 40)])], ∅⟩) := by
  have hdisj : ([("A", [((10 : Int), (20 : Int))]), ("B", [(30, 40)])]).Pairwise
      (fun a b => extents_disjoint a.2 b.2) := by
    refine List.pairwise_cons.mpr ⟨?_, List.pairwise_singleton _ _⟩
    intro b hb x hx
    simp only [List.mem_singleton] at hb
    subst hb
    simp only [ownsCluster, List.any_cons, List.any_nil, Bool.or_false,
      Bool.and_eq_true, decide_eq_true_eq] at hx
    omega
  refine ⟨?_, ?_, ?_⟩
  · exact (c9_click_resolution
      ⟨some "A", [(10, 20)], [("A", [(10, 20)]), ("B", [(30, 40)])], ∅⟩ "A" 15
      hdisj rfl (by decide)).1 (by decide)
  · exact (c9_click_resolution
      ⟨some "A", [(10, 20)], [("A", [(10, 20)]), ("B", [(30, 40)])], ∅⟩ "A" 35
      hdisj rfl (by decide)).2.1 "B" [(30, 40)] (by decide) (by decide)
      (by decide)
  · exact (c9_click_resolution
      ⟨some "A", [(10, 20)], [("A", [(10, 20)]), ("B", [(30, 40)])], ∅⟩ "A" 25
      hdisj rfl (by decide)).2.2 (by decide)

/-- Claim C10 (confirmed): the ownership search of `handle_cluster_click`
always returns the LAST entry of the map, in iteration order, whose extents
contain the clicked cluster (`break` leaves only the inner per-extent loop,
so later matching files overwrite earlier ones); with the concrete
overlapping map `A ↦ [(0,10)]`, `B ↦ [(5,15)]` a click on cluster 7 selects
`B`.  For maps whose files' extents are pairwise disjoint this last match is
the unique owner. -/
theorem c10_last_match_wins :
    (∀ (m : List (String × List (Int × Int))) (c : Int),
      find_clicked m c =
        match last_owner m c with
        | some e => (some e.1, e.2)
        | none => (none, [])) ∧
    find_clicked [("A", [(0, 10)]), ("B", [(5, 15)])] 7 =
      (some "B", [(5, 15)]) := by
  exact ⟨fun m c => click_fold_acc c m (none, []), by decide⟩

end ClustersMap
